import Mathlib

/-!
Verification development for the Ubuntu autoinstall ISO builder
(`ubuntu-autoinstall-generator.py`).

The boot-config patch engine is embedded shallowly:

* `re.sub` with the three concrete patterns of the source
  (`(linux\s+/casper/(?:hwe-)?vmlinuz)(\s+---\s+|\s*$)`,
  `(linuxefi\s+/casper/(?:hwe-)?vmlinuz)(\s+---\s+|\s*$)`,
  `(append\s+)`) is implemented as a left-to-right scanner
  (`reSub`) over concrete matchers (`grubMatchAt`, `isoMatchAt`) that
  reproduce the Python regex semantics at these specific patterns:
  leftmost, non-overlapping, alternatives tried left first, greedy
  quantifiers, `$` in MULTILINE mode matching at end of text or before
  a newline.
* the final cleanup `re.sub(r'  +', ' ', content)` is `collapseSpaces`.
* `modify_file_with_patterns`, `create_iso`'s command construction and
  post-conditions, and `build`'s control flow are modelled by
  `modifyFileWithPatterns`, `createIsoCmd` / `createIsoStep` and `build`.

`\s` is modelled by the ASCII whitespace characters (the config files
involved are ASCII).
-/

namespace UbuntuAutoinstall

/-- ASCII model of Python's `\s` character class for `str` patterns. -/
def pySpace (c : Char) : Bool :=
  c = ' ' || c = '\t' || c = '\n' || c = '\r' || c = '\x0b' || c = '\x0c'

/-- Strip an expected literal from the front of `s`; `none` when `s` does not
start with `lit`. -/
def dropLit? (lit s : List Char) : Option (List Char) :=
  if s.take lit.length = lit then some (s.drop lit.length) else none

/-- Does `pat` occur as a contiguous substring of `s`? -/
def occursB (pat : List Char) : List Char → Bool
  | [] => decide (pat = [])
  | c :: rest => decide ((c :: rest).take pat.length = pat) || occursB pat rest

/-- Number of positions of `s` at which `pat` occurs as a substring. -/
def countOcc (pat : List Char) : List Char → Nat
  | [] => if pat = [] then 1 else 0
  | c :: rest => (if (c :: rest).take pat.length = pat then 1 else 0) + countOcc pat rest

/- Literal fragments of the source's regex patterns. -/

def keyLinux : List Char := ['l', 'i', 'n', 'u', 'x']

def keyLinuxefi : List Char := keyLinux ++ ['e', 'f', 'i']

def casperLit : List Char := ['/', 'c', 'a', 's', 'p', 'e', 'r', '/']

def vmlinuzLit : List Char := ['v', 'm', 'l', 'i', 'n', 'u', 'z']

def hweVmlinuzLit : List Char := ['h', 'w', 'e', '-'] ++ vmlinuzLit

def dashes : List Char := ['-', '-', '-']

def appendLit : List Char := ['a', 'p', 'p', 'e', 'n', 'd']

/-- Longest proper prefix of a whitespace run after which the very next
character is a newline; this is where a greedy `\s*` followed by a MULTILINE
`$` ends up, after backtracking, when the run is not at the end of the text. -/
def lastNlSplit : List Char → Option (List Char)
  | [] => none
  | c :: rest =>
    match lastNlSplit rest with
    | some p => some (c :: p)
    | none => if c = '\n' then some [] else none

/-- The `\s*$` alternative of the GRUB patterns (MULTILINE): the greedy run of
whitespace that ends at end of text, or else right before the last newline of
the whitespace run. -/
def grubG2Dollar (s : List Char) : Option (List Char) :=
  if s.dropWhile pySpace = [] then some (s.takeWhile pySpace)
  else lastNlSplit (s.takeWhile pySpace)

/-- The second group `(\s+---\s+|\s*$)` of the GRUB patterns, tried at the
position right after the kernel path: first alternative first, greedy `\s+`
(deterministic here since whitespace and `-` are disjoint). -/
def grubG2 (s : List Char) : Option (List Char) :=
  let w1 := s.takeWhile pySpace
  let r1 := s.dropWhile pySpace
  if w1 ≠ [] ∧ r1.take 3 = dashes then
    let w2 := (r1.drop 3).takeWhile pySpace
    if w2 ≠ [] then some (w1 ++ dashes ++ w2)
    else grubG2Dollar s
  else grubG2Dollar s

/-- Match of `(key\s+/casper/(?:hwe-)?vmlinuz)(\s+---\s+|\s*$)` at the front of
`s`, where `key` is `linux` or `linuxefi`.  On success, returns the text the
replacement template `\1 <params>\2` produces together with the length of the
matched text. -/
def grubMatchAt (key ps : List Char) (s : List Char) : Option (List Char × Nat) :=
  match dropLit? key s with
  | none => none
  | some r =>
    let w := r.takeWhile pySpace
    if w = [] then none
    else
      let r2 := r.dropWhile pySpace
      match dropLit? casperLit r2 with
      | none => none
      | some r3 =>
        match dropLit? hweVmlinuzLit r3 with
        | some r4 =>
          match grubG2 r4 with
          | none => none
          | some g2 =>
            let g1 := key ++ w ++ casperLit ++ hweVmlinuzLit
            some (g1 ++ ' ' :: (ps ++ g2), g1.length + g2.length)
        | none =>
          match dropLit? vmlinuzLit r3 with
          | none => none
          | some r4 =>
            match grubG2 r4 with
            | none => none
            | some g2 =>
              let g1 := key ++ w ++ casperLit ++ vmlinuzLit
              some (g1 ++ ' ' :: (ps ++ g2), g1.length + g2.length)

/-- Match of `(append\s+)` at the front of `s`, with the text produced by the
replacement template `\1<params> ` and the matched length. -/
def isoMatchAt (ps : List Char) (s : List Char) : Option (List Char × Nat) :=
  match dropLit? appendLit s with
  | none => none
  | some r =>
    let w := r.takeWhile pySpace
    if w = [] then none
    else some (appendLit ++ w ++ ps ++ [' '], appendLit.length + w.length)

/-- Left-to-right, non-overlapping substitution scanner (the semantics of
`re.sub` for a matcher `m` whose matches are nonempty).  `m s` returns the
replacement text and the length of the match at the front of `s`.  The fuel is
one unit per text position; `reSub` supplies enough. -/
def reSubGo (m : List Char → Option (List Char × Nat)) : Nat → List Char → List Char
  | _, [] => []
  | 0, s => s
  | fuel + 1, c :: rest =>
    match m (c :: rest) with
    | some (rep, k) => rep ++ reSubGo m fuel (rest.drop (k - 1))
    | none => c :: reSubGo m fuel rest

/-- Run `re.sub` over the whole text for matcher `m`. -/
def reSub (m : List Char → Option (List Char × Nat)) (s : List Char) : List Char :=
  reSubGo m s.length s

/-- The autoinstall directive `autoinstall ds=nocloud-net;s=http://<ip>:<port>/`
built from the HTTP endpoint, with the port rendered in decimal. -/
def natDigitsGo : Nat → Nat → List Char
  | 0, _ => []
  | fuel + 1, n =>
    if n < 10 then [Char.ofNat (48 + n)]
    else natDigitsGo fuel (n / 10) ++ [Char.ofNat (48 + n % 10)]

/-- Decimal rendering of a natural number (as Python's f-string does). -/
def natDigits (n : Nat) : List Char := natDigitsGo (n + 1) n

def autoinstallParams (ip : String) (port : Nat) : List Char :=
  "autoinstall ds=nocloud-net;s=http://".data ++ ip.data ++ ':' :: natDigits port ++ "/".data

/-- The directive at the default endpoint `10.0.2.2:8080`. -/
def defParams : List Char := autoinstallParams "10.0.2.2" 8080

/-- First GRUB rule: the `linux` kernel pattern. -/
def linuxSub (ps s : List Char) : List Char := reSub (grubMatchAt keyLinux ps) s

/-- Second GRUB rule: the `linuxefi` kernel pattern. -/
def linuxefiSub (ps s : List Char) : List Char := reSub (grubMatchAt keyLinuxefi ps) s

/-- The ISOLINUX rule `(append\s+)`. -/
def isoSub (ps s : List Char) : List Char := reSub (isoMatchAt ps) s

/-- The full GRUB rule set, in the source's order, without the space collapse. -/
def grubRulesOnly (ps s : List Char) : List Char := linuxefiSub ps (linuxSub ps s)

/-- Applying a list of substitution rules in order (the `for pattern,
replacement in patterns` loop). -/
def applyPatterns (rules : List (List Char → List Char)) (s : List Char) : List Char :=
  rules.foldl (fun a f => f a) s

/-- Model of `re.sub(r'  +', ' ', content)`: every maximal run of two or more space
characters becomes a single space.  The boolean records whether the previously
emitted character was a space. -/
def collapseGo : Bool → List Char → List Char
  | _, [] => []
  | b, c :: rest =>
    if c = ' ' then
      if b then collapseGo true rest
      else ' ' :: collapseGo true rest
    else c :: collapseGo false rest

def collapseSpaces (s : List Char) : List Char := collapseGo false s

/-- The GRUB rule set of the builder (as data, like `self.grub_patterns`). -/
def grubRules (ps : List Char) : List (List Char → List Char) :=
  [fun s => linuxSub ps s, fun s => linuxefiSub ps s]

/-- The ISOLINUX rule set (`[self.isolinux_pattern]`). -/
def isoRules (ps : List Char) : List (List Char → List Char) :=
  [fun s => isoSub ps s]

/-- Full per-file transformation for a rule set: all rules in order, then the
space collapse. -/
def grubPipeline (ps s : List Char) : List Char := collapseSpaces (grubRulesOnly ps s)

def isoPipeline (ps s : List Char) : List Char := collapseSpaces (isoSub ps s)

/-- Model of `modify_file_with_patterns`: the file is `none` when absent.  Returns
(modified?, file content afterwards, backup file contents).  An absent file is
reported unmodified with no error; otherwise the rules are applied in order,
spaces are collapsed, and the file is rewritten (with a `.bak` backup of the
original) only when the text changed. -/
def modifyFileWithPatterns (rules : List (List Char → List Char)) :
    Option (List Char) → Bool × Option (List Char) × Option (List Char)
  | none => (false, none, none)
  | some content =>
    let c := collapseSpaces (applyPatterns rules content)
    if c = content then (false, some content, none)
    else (true, some c, some content)

/-- The `xorriso -as mkisofs` invocation of `create_iso`: base command, Rock
Ridge flag, output flag and path, then the boot arguments extracted from the
source image, then the working tree as final argument. -/
def createIsoCmd (outputIso : String) (bootArgs : List String) (isoDir : String) : List String :=
  (["xorriso", "-as", "mkisofs", "-r", "-o", outputIso] ++ bootArgs) ++ [isoDir]

/-- Abstract build-relevant state: the candidate config files of each dialect
(absent files are `none`), whether the output image exists, whether the ISO
tree was extracted, whether mastering ran, and the outcome the external
mastering tool would report (`none` = nonzero exit; `some (exists, size)` =
zero exit leaving an output file of that existence/size). -/
structure World where
  grubConfigs : List (Option (List Char))
  isoConfigs : List (Option (List Char))
  outputExists : Bool
  extracted : Bool
  mastered : Bool
  masterOutcome : Option (Bool × Nat)
deriving DecidableEq

/-- Model of `extract_iso`. -/
def extractIso (w : World) : World :=
  World.mk w.grubConfigs w.isoConfigs w.outputExists true w.mastered w.masterOutcome

/-- Model of `modify_boot_configs`: each GRUB config through the GRUB rule set, each
ISOLINUX config through the ISOLINUX rule set. -/
def modifyBootConfigs (ps : List Char) (w : World) : World :=
  World.mk
    (w.grubConfigs.map fun f => (modifyFileWithPatterns (grubRules ps) f).2.1)
    (w.isoConfigs.map fun f => (modifyFileWithPatterns (isoRules ps) f).2.1)
    w.outputExists w.extracted w.mastered w.masterOutcome

/-- Model of `create_iso` after the mastering command: nonzero exit is fatal; on zero
exit the output must exist and its size must be at least 1 MiB (the source
compares `st_size / (1024*1024) < 1` in floating point, which is exact at this
threshold), else fatal. -/
def createIsoStep (w : World) : Except String World :=
  match w.masterOutcome with
  | none => Except.error "ISO creation failed. See logs above for details."
  | some (ex, size) =>
    if ex = false then Except.error "Output ISO was not created"
    else if size < 1048576 then Except.error "Output ISO seems too small"
    else Except.ok
      (World.mk w.grubConfigs w.isoConfigs true w.extracted true w.masterOutcome)

/-- Model of `build`: dependency check, source validation, the validate-only early
return, the output-exists early return, then extract / patch / master. -/
def build (depsOk srcOk validateOnly : Bool) (ps : List Char) (w : World) :
    Except String World :=
  if depsOk = false then Except.error "Missing required tools"
  else if srcOk = false then Except.error "Source ISO not found"
  else if validateOnly then Except.ok w
  else if w.outputExists then Except.ok w
  else createIsoStep (modifyBootConfigs ps (extractIso w))

/-- Whitespace splitting of a line into tokens (Python `str.split` style):
the accumulator holds the current token reversed. -/
def wordsGo : List Char → List Char → List (List Char)
  | cur, [] => if cur = [] then [] else [cur.reverse]
  | cur, c :: rest =>
    if pySpace c then
      if cur = [] then wordsGo [] rest else cur.reverse :: wordsGo [] rest
    else wordsGo (c :: cur) rest

def pyWords (s : List Char) : List (List Char) := wordsGo [] s

def autoTok : List Char := "autoinstall".data

def dsTok : List Char := "ds=nocloud-net;s=http://10.0.2.2:8080/".data

/-- Every character of the run is whitespace. -/
abbrev wsRun (l : List Char) : Prop := ∀ c ∈ l, pySpace c = true

/-- Empty, or headed by a non-whitespace character. -/
def headNonWs (l : List Char) : Prop := ∀ c t, l = c :: t → pySpace c = false

/-- Empty, or headed by a whitespace character. -/
def headWs (l : List Char) : Prop := ∀ c t, l = c :: t → pySpace c = true

/-- Shape of the text following the kernel path on a matching GRUB line,
together with the tokens it contributes after the inserted directive: either
`\s+---\s+` followed by the rest of the line, or trailing whitespace up to the
end of the text. -/
def GrubTail (tail : List Char) (tw : List (List Char)) : Prop :=
  (∃ w2 w3 post, tail = w2 ++ dashes ++ w3 ++ post ∧
    wsRun w2 ∧ w2 ≠ [] ∧ wsRun w3 ∧ w3 ≠ [] ∧ headNonWs post ∧
    occursB keyLinux post = false ∧ autoTok ∉ pyWords post ∧
    tw = dashes :: pyWords post) ∨
  (wsRun tail ∧ tw = [])

/-- No suffix of `s` is matched by `m` (positions are suffixes of `s`). -/
def NoMatchIn (m : List Char → Option (List Char × Nat)) (s : List Char) : Prop :=
  ∀ t ∈ s.tails, m t = none

/-- Decidable sufficient condition for a concrete piece of text to host no
match of a pattern whose matches start with the literal `key`, whatever text
follows the piece: every nonempty suffix of the piece disagrees with `key`
within the piece itself. -/
def npmCheck (key piece : List Char) : Bool :=
  piece.tails.all fun t =>
    t.isEmpty ||
      (if key.length ≤ t.length then decide (t.take key.length ≠ key)
       else decide (t ≠ key.take t.length))

/-! ### Basic list helpers -/

theorem take_len_append (a b : List Char) : (a ++ b).take a.length = a := by
  induction a with
  | nil => simp
  | cons x a' ih => simp [ih]

theorem drop_len_append (a b : List Char) : (a ++ b).drop a.length = b := by
  induction a with
  | nil => simp
  | cons x a' ih => simp [ih]

theorem take_app_le {n : Nat} (a b : List Char) (h : n ≤ a.length) :
    (a ++ b).take n = a.take n := by
  induction a generalizing n with
  | nil =>
    have h0 : n = 0 := by simpa using h
    simp [h0]
  | cons x a' ih =>
    cases n with
    | zero => simp
    | succ n' =>
      have h' : n' ≤ a'.length := by simpa using h
      rw [List.cons_append, List.take_succ_cons, List.take_succ_cons, ih h']

theorem take_take_le {n m : Nat} (l : List Char) (h : n ≤ m) :
    (l.take m).take n = l.take n := by
  induction l generalizing n m with
  | nil => simp
  | cons x l' ih =>
    cases m with
    | zero => simp at h; simp [h]
    | succ m' =>
      cases n with
      | zero => simp
      | succ n' => simp at h; simp [List.take_succ_cons, ih h]

theorem dropLit?_append (a b : List Char) : dropLit? a (a ++ b) = some b := by
  simp [dropLit?, take_len_append, drop_len_append]

theorem dropLit?_take {lit s r : List Char} (h : dropLit? lit s = some r) :
    s.take lit.length = lit := by
  by_cases hc : s.take lit.length = lit
  · exact hc
  · simp [dropLit?, hc] at h

theorem dropLit?_drop {lit s r : List Char} (h : dropLit? lit s = some r) :
    r = s.drop lit.length := by
  have hc := dropLit?_take h
  simp [dropLit?, hc] at h
  exact h.symm

theorem dropLit?_head {k c : Char} {key t r : List Char}
    (h : dropLit? (k :: key) (c :: t) = some r) : c = k := by
  have := dropLit?_take h
  simp [List.take_succ_cons] at this
  exact this.1

/-! ### `NoMatchIn` machinery -/

theorem noMatchIn_nil {m : List Char → Option (List Char × Nat)}
    (h : m [] = none) : NoMatchIn m [] := by
  intro t ht
  simp [List.tails] at ht
  subst ht
  exact h

theorem noMatchIn_cons {m : List Char → Option (List Char × Nat)} {c : Char}
    {s : List Char} (h1 : m (c :: s) = none) (h2 : NoMatchIn m s) :
    NoMatchIn m (c :: s) := by
  intro t ht
  rw [List.tails_cons] at ht
  rcases List.mem_cons.mp ht with h | h
  · subst h; exact h1
  · exact h2 t h

theorem mem_tails_append {t a b : List Char} (h : t ∈ (a ++ b).tails) :
    t ∈ b.tails ∨ ∃ u, u ∈ a.tails ∧ u ≠ [] ∧ t = u ++ b := by
  induction a with
  | nil =>
    rw [List.nil_append] at h
    exact Or.inl h
  | cons x a' ih =>
    rw [List.cons_append, List.tails_cons] at h
    rcases List.mem_cons.mp h with h | h
    · right
      exact ⟨x :: a', by rw [List.tails_cons]; exact List.mem_cons_self _ _, by simp, h⟩
    · rcases ih h with h | ⟨u, hu, hne, ht⟩
      · exact Or.inl h
      · right
        exact ⟨u, by rw [List.tails_cons]; exact List.mem_cons_of_mem _ hu, hne, ht⟩

theorem noMatchIn_append_of_ne_head {m : List Char → Option (List Char × Nat)}
    {h : Char} {a b : List Char}
    (hm : ∀ c t r, m (c :: t) = some r → c = h)
    (ha : ∀ c ∈ a, c ≠ h) (hb : NoMatchIn m b) : NoMatchIn m (a ++ b) := by
  intro t ht
  rcases mem_tails_append ht with h1 | ⟨u, hu, hne, rfl⟩
  · exact hb t h1
  · match u, hne with
    | c :: u', _ =>
      cases heq : m (c :: u' ++ b) with
      | none => rfl
      | some r =>
        have hc := hm c (u' ++ b) r (by simpa using heq)
        have hsuf : (c :: u') <:+ a := (List.mem_tails _ _).mp hu
        have hcmem : c ∈ a := hsuf.subset (List.mem_cons_self _ _)
        exact absurd hc (ha c hcmem)

theorem occursB_of_mem_tails {p t s : List Char} (ht : t ∈ s.tails)
    (h : t.take p.length = p) : occursB p s = true := by
  induction s with
  | nil =>
    simp [List.tails] at ht
    subst ht
    simp at h
    simp [occursB, ← h]
  | cons c rest ih =>
    rw [List.tails_cons] at ht
    rcases List.mem_cons.mp ht with rfl | hmem
    · simp [occursB, h]
    · simp [occursB, ih hmem]

theorem noMatchIn_of_occursB {m : List Char → Option (List Char × Nat)}
    {p s : List Char}
    (hk : ∀ s' r, m s' = some r → s'.take p.length = p)
    (h : occursB p s = false) : NoMatchIn m s := by
  intro t ht
  cases heq : m t with
  | none => rfl
  | some r =>
    have := occursB_of_mem_tails ht (hk t r heq)
    rw [this] at h
    simp at h

theorem noMatchIn_append_of_check {m : List Char → Option (List Char × Nat)}
    {p a b : List Char}
    (hk : ∀ s' r, m s' = some r → s'.take p.length = p)
    (hc : npmCheck p a = true) (hb : NoMatchIn m b) : NoMatchIn m (a ++ b) := by
  intro t ht
  rcases mem_tails_append ht with h1 | ⟨u, hu, hne, rfl⟩
  · exact hb t h1
  · cases heq : m (u ++ b) with
    | none => rfl
    | some r =>
      have htake := hk _ _ heq
      have hcheck := (List.all_eq_true.mp hc) u hu
      rw [Bool.or_eq_true] at hcheck
      rcases hcheck with h0 | h0
      · rw [List.isEmpty_iff] at h0
        exact absurd h0 hne
      · by_cases hlen : p.length ≤ u.length
        · rw [if_pos hlen] at h0
          rw [take_app_le _ _ hlen] at htake
          simp at h0
          exact absurd htake h0
        · rw [if_neg hlen] at h0
          push_neg at hlen
          simp at h0
          have h1 : ((u ++ b).take p.length).take u.length = u := by
            rw [take_take_le _ (Nat.le_of_lt hlen)]
            exact take_len_append u b
          rw [htake] at h1
          exact absurd h1.symm h0

/-! ### Generic `re.sub` scanner lemmas -/

theorem reSubGo_nil (m : List Char → Option (List Char × Nat)) (fuel : Nat) :
    reSubGo m fuel [] = [] := by
  cases fuel <;> rfl

theorem reSubGo_cons_none {m : List Char → Option (List Char × Nat)} {fuel : Nat}
    {c : Char} {rest : List Char} (h : m (c :: rest) = none) :
    reSubGo m (fuel + 1) (c :: rest) = c :: reSubGo m fuel rest := by
  simp only [reSubGo, h]

theorem reSubGo_cons_some {m : List Char → Option (List Char × Nat)} {fuel : Nat}
    {c : Char} {rest rep : List Char} {k : Nat}
    (h : m (c :: rest) = some (rep, k)) :
    reSubGo m (fuel + 1) (c :: rest) = rep ++ reSubGo m fuel (rest.drop (k - 1)) := by
  simp only [reSubGo, h]

theorem reSubGo_id {m : List Char → Option (List Char × Nat)} {s : List Char}
    (h : NoMatchIn m s) : ∀ fuel, reSubGo m fuel s = s := by
  induction s with
  | nil => intro fuel; exact reSubGo_nil m fuel
  | cons c rest ih =>
    intro fuel
    cases fuel with
    | zero => rfl
    | succ f =>
      have h0 : m (c :: rest) = none := h _ (by rw [List.tails_cons]; exact List.mem_cons_self _ _)
      have h1 : NoMatchIn m rest := by
        intro t ht
        exact h t (by rw [List.tails_cons]; exact List.mem_cons_of_mem _ ht)
      simp [reSubGo, h0, ih h1 f]

theorem reSub_id {m : List Char → Option (List Char × Nat)} {s : List Char}
    (h : NoMatchIn m s) : reSub m s = s :=
  reSubGo_id h s.length

theorem reSubGo_fuel (m : List Char → Option (List Char × Nat)) :
    ∀ n s f1 f2, s.length ≤ n → s.length ≤ f1 → s.length ≤ f2 →
      reSubGo m f1 s = reSubGo m f2 s := by
  intro n
  induction n with
  | zero =>
    intro s f1 f2 hn _ _
    have : s = [] := List.length_eq_zero.mp (Nat.le_zero.mp hn)
    subst this
    rw [reSubGo_nil, reSubGo_nil]
  | succ n ih =>
    intro s f1 f2 hn h1 h2
    cases s with
    | nil => rw [reSubGo_nil, reSubGo_nil]
    | cons c rest =>
      rw [List.length_cons] at hn h1 h2
      cases f1 with
      | zero => omega
      | succ a =>
        cases f2 with
        | zero => omega
        | succ b =>
          cases hm : m (c :: rest) with
          | none =>
            simp only [reSubGo, hm]
            rw [ih rest a b (by omega) (by omega) (by omega)]
          | some rk =>
            simp only [reSubGo, hm]
            have hd : (rest.drop (rk.2 - 1)).length ≤ rest.length := by
              rw [List.length_drop]; omega
            rw [ih _ a b (by omega) (by omega) (by omega)]

theorem reSub_eq_go {m : List Char → Option (List Char × Nat)} {s : List Char}
    {fuel : Nat} (h : s.length ≤ fuel) : reSub m s = reSubGo m fuel s :=
  reSubGo_fuel m s.length s s.length fuel (Nat.le_refl _) (Nat.le_refl _) h

theorem reSubGo_pass {m : List Char → Option (List Char × Nat)} :
    ∀ (pre s : List Char) (fuel : Nat),
      (∀ t ∈ pre.tails, t ≠ [] → m (t ++ s) = none) →
      (pre ++ s).length ≤ fuel →
      reSubGo m fuel (pre ++ s) = pre ++ reSubGo m (fuel - pre.length) s := by
  intro pre
  induction pre with
  | nil => intro s fuel _ _; simp
  | cons c pre' ih =>
    intro s fuel hpre hlen
    cases fuel with
    | zero => simp at hlen
    | succ f =>
      have h0 : m (c :: (pre' ++ s)) = none := by
        have h0' := hpre (c :: pre')
          (by rw [List.tails_cons]; exact List.mem_cons_self _ _) (by simp)
        rw [List.cons_append] at h0'
        exact h0'
      have hrec := ih s f
        (fun t ht hne => hpre t (by rw [List.tails_cons]; exact List.mem_cons_of_mem _ ht) hne)
        (by rw [List.cons_append, List.length_cons] at hlen; omega)
      have harith : f + 1 - (c :: pre').length = f - pre'.length := by
        rw [List.length_cons]; omega
      rw [harith, List.cons_append, reSubGo_cons_none h0, hrec]
      rfl

theorem reSub_pass {m : List Char → Option (List Char × Nat)} {pre s : List Char}
    (hpre : ∀ t ∈ pre.tails, t ≠ [] → m (t ++ s) = none) :
    reSub m (pre ++ s) = pre ++ reSub m s := by
  rw [reSub, reSubGo_pass pre s _ hpre (by simp)]
  congr 1
  apply reSubGo_fuel m s.length s _ s.length <;> simp

theorem reSub_match {m : List Char → Option (List Char × Nat)} {s rep : List Char}
    {k : Nat} (hs : s ≠ []) (h : m s = some (rep, k)) (hk : 1 ≤ k) :
    reSub m s = rep ++ reSub m (s.drop k) := by
  cases s with
  | nil => exact absurd rfl hs
  | cons c rest =>
    rw [reSub]
    have hgo : reSubGo m (c :: rest).length (c :: rest)
        = rep ++ reSubGo m rest.length (rest.drop (k - 1)) := by
      rw [List.length_cons, reSubGo_cons_some h]
    rw [hgo]
    have hrw : rest.drop (k - 1) = (c :: rest).drop k := by
      cases k with
      | zero => omega
      | succ k' => simp
    rw [hrw]
    congr 1
    rw [reSub]
    have hd : ((c :: rest).drop k).length ≤ rest.length := by
      rw [List.length_drop, List.length_cons]; omega
    exact reSubGo_fuel m (c :: rest).length _ _ _
      (by rw [List.length_drop]; omega) (by omega) (Nat.le_refl _)

/-! ### Whitespace-run helpers -/

theorem headNonWs_append {tok rest : List Char} (htok : ∀ c ∈ tok, pySpace c = false)
    (hne : tok ≠ []) : headNonWs (tok ++ rest) := by
  intro c t h
  match tok, hne with
  | c0 :: tok', _ =>
    rw [List.cons_append] at h
    injection h with h1 _
    rw [← h1]
    exact htok c0 (List.mem_cons_self _ _)

theorem takeWhile_all {w : List Char} (hw : wsRun w) : w.takeWhile pySpace = w := by
  induction w with
  | nil => rfl
  | cons c rest ih =>
    rw [List.takeWhile_cons, if_pos (hw c (List.mem_cons_self _ _))]
    rw [ih fun x hx => hw x (List.mem_cons_of_mem _ hx)]

theorem dropWhile_all {w : List Char} (hw : wsRun w) : w.dropWhile pySpace = [] := by
  induction w with
  | nil => rfl
  | cons c rest ih =>
    rw [List.dropWhile_cons, if_pos (hw c (List.mem_cons_self _ _))]
    exact ih fun x hx => hw x (List.mem_cons_of_mem _ hx)

theorem takeWhile_headNonWs {s : List Char} (hs : headNonWs s) :
    s.takeWhile pySpace = [] := by
  cases s with
  | nil => rfl
  | cons c t => rw [List.takeWhile_cons, if_neg (by rw [hs c t rfl]; simp)]

theorem dropWhile_headNonWs {s : List Char} (hs : headNonWs s) :
    s.dropWhile pySpace = s := by
  cases s with
  | nil => rfl
  | cons c t => rw [List.dropWhile_cons, if_neg (by rw [hs c t rfl]; simp)]

theorem takeWhile_run {w rest : List Char} (hw : wsRun w) (hrest : headNonWs rest) :
    (w ++ rest).takeWhile pySpace = w := by
  rw [List.takeWhile_append_of_pos hw, takeWhile_headNonWs hrest, List.append_nil]

theorem dropWhile_run {w rest : List Char} (hw : wsRun w) (hrest : headNonWs rest) :
    (w ++ rest).dropWhile pySpace = rest := by
  rw [List.dropWhile_append_of_pos hw, dropWhile_headNonWs hrest]

theorem take_len_add_append (a b : List Char) (n : Nat) :
    (a ++ b).take (a.length + n) = a ++ b.take n := by
  induction a with
  | nil => simp
  | cons x a' ih =>
    rw [List.cons_append, List.length_cons, Nat.succ_add, List.take_succ_cons, ih,
      List.cons_append]

theorem drop_app_le {n : Nat} (a b : List Char) (h : n ≤ a.length) :
    (a ++ b).drop n = a.drop n ++ b := by
  induction a generalizing n with
  | nil =>
    have h0 : n = 0 := by simpa using h
    simp [h0]
  | cons x a' ih =>
    cases n with
    | zero => simp
    | succ n' =>
      have h' : n' ≤ a'.length := by simpa using h
      rw [List.cons_append, List.drop_succ_cons, List.drop_succ_cons, ih h']

theorem lastNlSplit_none {w : List Char} (h : '\n' ∉ w) : lastNlSplit w = none := by
  induction w with
  | nil => rfl
  | cons c rest ih =>
    have hc : ¬(c = '\n') := fun hc => h (hc ▸ List.mem_cons_self _ _)
    rw [lastNlSplit, ih fun hm => h (List.mem_cons_of_mem _ hm), if_neg hc]

/-! ### Evaluation of `grubG2` -/

theorem grubG2Dollar_tok {w2 tok rest : List Char} (hw2 : wsRun w2) (hnl : '\n' ∉ w2)
    (htokne : tok ≠ []) (htok : ∀ c ∈ tok, pySpace c = false) :
    grubG2Dollar (w2 ++ (tok ++ rest)) = none := by
  have hhead : headNonWs (tok ++ rest) := headNonWs_append htok htokne
  have htw : (w2 ++ (tok ++ rest)).takeWhile pySpace = w2 := takeWhile_run hw2 hhead
  have hdw : (w2 ++ (tok ++ rest)).dropWhile pySpace = tok ++ rest := dropWhile_run hw2 hhead
  have hne : ¬(tok ++ rest = []) := fun h => htokne (List.append_eq_nil.mp h).1
  rw [grubG2Dollar, htw, hdw, if_neg hne, lastNlSplit_none hnl]

theorem grubG2_ws {tail : List Char} (hw : wsRun tail) : grubG2 tail = some tail := by
  rw [grubG2]
  rw [takeWhile_all hw, dropWhile_all hw]
  rw [if_neg (by simp [dashes])]
  rw [grubG2Dollar, takeWhile_all hw, dropWhile_all hw, if_pos rfl]

theorem grubG2_dashes {w2 w3 post : List Char} (hw2 : wsRun w2) (hw2n : w2 ≠ [])
    (hw3 : wsRun w3) (hw3n : w3 ≠ []) (hpost : headNonWs post) :
    grubG2 (w2 ++ (dashes ++ (w3 ++ post))) = some (w2 ++ dashes ++ w3) := by
  have hhead : headNonWs (dashes ++ (w3 ++ post)) :=
    headNonWs_append (by decide) (by decide)
  have htw : (w2 ++ (dashes ++ (w3 ++ post))).takeWhile pySpace = w2 :=
    takeWhile_run hw2 hhead
  have hdw : (w2 ++ (dashes ++ (w3 ++ post))).dropWhile pySpace = dashes ++ (w3 ++ post) :=
    dropWhile_run hw2 hhead
  have h3 : (dashes ++ (w3 ++ post)).take 3 = dashes := by
    rw [show (3 : Nat) = dashes.length from rfl]
    exact take_len_append _ _
  have hd3 : (dashes ++ (w3 ++ post)).drop 3 = w3 ++ post := by
    rw [show (3 : Nat) = dashes.length from rfl]
    exact drop_len_append _ _
  have htw3 : (w3 ++ post).takeWhile pySpace = w3 := takeWhile_run hw3 hpost
  rw [grubG2]
  rw [htw, hdw, h3, hd3, htw3]
  rw [if_pos ⟨hw2n, rfl⟩, if_pos hw3n]

theorem grubG2_tok_none {w2 tok rest : List Char} (hw2 : wsRun w2) (hnl : '\n' ∉ w2)
    (htokne : tok ≠ []) (htok : ∀ c ∈ tok, pySpace c = false) (htokd : tok ≠ dashes)
    (hrest : headWs rest) :
    grubG2 (w2 ++ (tok ++ rest)) = none := by
  have hhead : headNonWs (tok ++ rest) := headNonWs_append htok htokne
  have htw : (w2 ++ (tok ++ rest)).takeWhile pySpace = w2 := takeWhile_run hw2 hhead
  have hdw : (w2 ++ (tok ++ rest)).dropWhile pySpace = tok ++ rest := dropWhile_run hw2 hhead
  have hdollar := @grubG2Dollar_tok w2 tok rest hw2 hnl htokne htok
  by_cases hcond : w2 ≠ [] ∧ (tok ++ rest).take 3 = dashes
  · obtain ⟨hw2ne, h3⟩ := hcond
    have hinner : ((tok ++ rest).drop 3).takeWhile pySpace = [] := by
      match tok, htokne with
      | [c1], _ =>
        exfalso
        cases rest with
        | nil => simp [dashes] at h3
        | cons r t =>
          have hr := hrest r t rfl
          simp only [List.cons_append, List.nil_append, List.take_succ_cons,
            dashes] at h3
          injection h3 with h31 h32
          injection h32 with h33 h34
          rw [h33] at hr
          exact absurd hr (by decide)
      | [c1, c2], _ =>
        exfalso
        cases rest with
        | nil => simp [dashes] at h3
        | cons r t =>
          have hr := hrest r t rfl
          simp only [List.cons_append, List.nil_append, List.take_succ_cons,
            dashes] at h3
          injection h3 with h31 h32
          injection h32 with h33 h34
          injection h34 with h35 h36
          rw [h35] at hr
          exact absurd hr (by decide)
      | c1 :: c2 :: c3 :: t3, _ =>
        have h3' : c1 = '-' ∧ c2 = '-' ∧ c3 = '-' := by
          simp only [List.cons_append, List.take_succ_cons, List.take_zero,
            dashes] at h3
          injection h3 with h31 h32
          injection h32 with h33 h34
          injection h34 with h35 h36
          exact ⟨h31, h33, h35⟩
        have ht3ne : t3 ≠ [] := by
          intro h
          apply htokd
          rw [h, h3'.1, h3'.2.1, h3'.2.2]
          rfl
        have hd : ((c1 :: c2 :: c3 :: t3) ++ rest).drop 3 = t3 ++ rest := by
          simp [List.cons_append]
        rw [hd]
        exact takeWhile_headNonWs (headNonWs_append
          (fun c hc => htok c (by simp [hc])) ht3ne)
    rw [grubG2]
    rw [htw, hdw]
    rw [if_pos ⟨hw2ne, h3⟩, hinner, if_neg (by simp), hdollar]
  · rw [grubG2]
    rw [htw, hdw]
    rw [if_neg hcond, hdollar]

/-! ### Evaluation of the matchers -/

theorem grubMatchAt_take {key ps s : List Char} {r : List Char × Nat}
    (h : grubMatchAt key ps s = some r) : s.take key.length = key := by
  cases hd : dropLit? key s with
  | none =>
    simp only [grubMatchAt, hd] at h
    exact Option.noConfusion h
  | some r2 => exact dropLit?_take hd

theorem isoMatchAt_take {ps s : List Char} {r : List Char × Nat}
    (h : isoMatchAt ps s = some r) : s.take appendLit.length = appendLit := by
  cases hd : dropLit? appendLit s with
  | none =>
    simp only [isoMatchAt, hd] at h
    exact Option.noConfusion h
  | some r2 => exact dropLit?_take hd

theorem head_of_take_cons {c k : Char} {t keyt : List Char}
    (h : (c :: t).take (k :: keyt).length = k :: keyt) : c = k := by
  rw [List.length_cons, List.take_succ_cons] at h
  exact (List.cons_eq_cons.mp h).1

theorem grubMatchAt_head {key ps : List Char} {c : Char} {t : List Char}
    {r : List Char × Nat} (hkey : key = keyLinux ∨ key = keyLinuxefi)
    (h : grubMatchAt key ps (c :: t) = some r) : c = 'l' := by
  have ht := grubMatchAt_take h
  rcases hkey with rfl | rfl
  · simp only [keyLinux] at ht
    exact head_of_take_cons ht
  · simp only [keyLinuxefi, keyLinux] at ht
    exact head_of_take_cons ht

theorem isoMatchAt_head {ps : List Char} {c : Char} {t : List Char}
    {r : List Char × Nat} (h : isoMatchAt ps (c :: t) = some r) : c = 'a' := by
  have ht := isoMatchAt_take h
  simp only [appendLit] at ht
  exact head_of_take_cons ht

theorem grubMatchAt_linuxefi_take5 {ps s : List Char} {r : List Char × Nat}
    (h : grubMatchAt keyLinuxefi ps s = some r) :
    s.take keyLinux.length = keyLinux := by
  have h8 := grubMatchAt_take h
  have h5 : (s.take keyLinuxefi.length).take keyLinux.length = s.take keyLinux.length :=
    take_take_le s (by decide)
  rw [h8] at h5
  rw [← h5]
  decide

theorem dropLit?_hwe_vmlinuz (tail : List Char) :
    dropLit? hweVmlinuzLit (vmlinuzLit ++ tail) = none := by
  rw [dropLit?, if_neg]
  intro h
  have h1 := congrArg (List.take 1) h
  rw [take_take_le _ (by decide)] at h1
  simp [vmlinuzLit, hweVmlinuzLit] at h1

theorem grubMatchAt_eval_v {key ps w tail g2 : List Char}
    (hw : wsRun w) (hwne : w ≠ []) (hg2 : grubG2 tail = some g2) :
    grubMatchAt key ps (key ++ (w ++ (casperLit ++ (vmlinuzLit ++ tail))))
      = some ((key ++ w ++ casperLit ++ vmlinuzLit) ++ ' ' :: (ps ++ g2),
              (key ++ w ++ casperLit ++ vmlinuzLit).length + g2.length) := by
  have hcasp : headNonWs (casperLit ++ (vmlinuzLit ++ tail)) :=
    headNonWs_append (by decide) (by decide)
  have h1 : dropLit? key (key ++ (w ++ (casperLit ++ (vmlinuzLit ++ tail))))
      = some (w ++ (casperLit ++ (vmlinuzLit ++ tail))) := dropLit?_append _ _
  have htw : (w ++ (casperLit ++ (vmlinuzLit ++ tail))).takeWhile pySpace = w :=
    takeWhile_run hw hcasp
  have hdw : (w ++ (casperLit ++ (vmlinuzLit ++ tail))).dropWhile pySpace
      = casperLit ++ (vmlinuzLit ++ tail) := dropWhile_run hw hcasp
  have h2 : dropLit? casperLit (casperLit ++ (vmlinuzLit ++ tail))
      = some (vmlinuzLit ++ tail) := dropLit?_append _ _
  have h3 := dropLit?_hwe_vmlinuz tail
  have h4 : dropLit? vmlinuzLit (vmlinuzLit ++ tail) = some tail := dropLit?_append _ _
  simp only [grubMatchAt, h1, htw, hdw, h2, h3, h4, hg2, hwne, if_false]

theorem grubMatchAt_eval_h {key ps w tail g2 : List Char}
    (hw : wsRun w) (hwne : w ≠ []) (hg2 : grubG2 tail = some g2) :
    grubMatchAt key ps (key ++ (w ++ (casperLit ++ (hweVmlinuzLit ++ tail))))
      = some ((key ++ w ++ casperLit ++ hweVmlinuzLit) ++ ' ' :: (ps ++ g2),
              (key ++ w ++ casperLit ++ hweVmlinuzLit).length + g2.length) := by
  have hcasp : headNonWs (casperLit ++ (hweVmlinuzLit ++ tail)) :=
    headNonWs_append (by decide) (by decide)
  have h1 : dropLit? key (key ++ (w ++ (casperLit ++ (hweVmlinuzLit ++ tail))))
      = some (w ++ (casperLit ++ (hweVmlinuzLit ++ tail))) := dropLit?_append _ _
  have htw : (w ++ (casperLit ++ (hweVmlinuzLit ++ tail))).takeWhile pySpace = w :=
    takeWhile_run hw hcasp
  have hdw : (w ++ (casperLit ++ (hweVmlinuzLit ++ tail))).dropWhile pySpace
      = casperLit ++ (hweVmlinuzLit ++ tail) := dropWhile_run hw hcasp
  have h2 : dropLit? casperLit (casperLit ++ (hweVmlinuzLit ++ tail))
      = some (hweVmlinuzLit ++ tail) := dropLit?_append _ _
  have h3 : dropLit? hweVmlinuzLit (hweVmlinuzLit ++ tail) = some tail :=
    dropLit?_append _ _
  simp only [grubMatchAt, h1, htw, hdw, h2, h3, hg2, hwne, if_false]

theorem grubMatchAt_evalFail_v {key ps w tail : List Char}
    (hw : wsRun w) (hg2 : grubG2 tail = none) :
    grubMatchAt key ps (key ++ (w ++ (casperLit ++ (vmlinuzLit ++ tail)))) = none := by
  have hcasp : headNonWs (casperLit ++ (vmlinuzLit ++ tail)) :=
    headNonWs_append (by decide) (by decide)
  have h1 : dropLit? key (key ++ (w ++ (casperLit ++ (vmlinuzLit ++ tail))))
      = some (w ++ (casperLit ++ (vmlinuzLit ++ tail))) := dropLit?_append _ _
  have htw : (w ++ (casperLit ++ (vmlinuzLit ++ tail))).takeWhile pySpace = w :=
    takeWhile_run hw hcasp
  have hdw : (w ++ (casperLit ++ (vmlinuzLit ++ tail))).dropWhile pySpace
      = casperLit ++ (vmlinuzLit ++ tail) := dropWhile_run hw hcasp
  have h2 : dropLit? casperLit (casperLit ++ (vmlinuzLit ++ tail))
      = some (vmlinuzLit ++ tail) := dropLit?_append _ _
  have h3 := dropLit?_hwe_vmlinuz tail
  have h4 : dropLit? vmlinuzLit (vmlinuzLit ++ tail) = some tail := dropLit?_append _ _
  by_cases hwe : w = []
  · simp only [grubMatchAt, h1, htw]
    rw [if_pos hwe]
  · simp only [grubMatchAt, h1, htw, hdw, h2, h3, h4, hg2, hwe, if_false]

theorem grubMatchAt_evalFail_h {key ps w tail : List Char}
    (hw : wsRun w) (hg2 : grubG2 tail = none) :
    grubMatchAt key ps (key ++ (w ++ (casperLit ++ (hweVmlinuzLit ++ tail)))) = none := by
  have hcasp : headNonWs (casperLit ++ (hweVmlinuzLit ++ tail)) :=
    headNonWs_append (by decide) (by decide)
  have h1 : dropLit? key (key ++ (w ++ (casperLit ++ (hweVmlinuzLit ++ tail))))
      = some (w ++ (casperLit ++ (hweVmlinuzLit ++ tail))) := dropLit?_append _ _
  have htw : (w ++ (casperLit ++ (hweVmlinuzLit ++ tail))).takeWhile pySpace = w :=
    takeWhile_run hw hcasp
  have hdw : (w ++ (casperLit ++ (hweVmlinuzLit ++ tail))).dropWhile pySpace
      = casperLit ++ (hweVmlinuzLit ++ tail) := dropWhile_run hw hcasp
  have h2 : dropLit? casperLit (casperLit ++ (hweVmlinuzLit ++ tail))
      = some (hweVmlinuzLit ++ tail) := dropLit?_append _ _
  have h3 : dropLit? hweVmlinuzLit (hweVmlinuzLit ++ tail) = some tail :=
    dropLit?_append _ _
  by_cases hwe : w = []
  · simp only [grubMatchAt, h1, htw]
    rw [if_pos hwe]
  · simp only [grubMatchAt, h1, htw, hdw, h2, h3, hg2, hwe, if_false]

theorem grubMatchAt_linux_at_efi (ps X : List Char) :
    grubMatchAt keyLinux ps (keyLinuxefi ++ X) = none := by
  have hsplit : keyLinuxefi ++ X = keyLinux ++ (['e', 'f', 'i'] ++ X) := by
    rw [keyLinuxefi, List.append_assoc]
  rw [hsplit]
  have h1 : dropLit? keyLinux (keyLinux ++ (['e', 'f', 'i'] ++ X))
      = some (['e', 'f', 'i'] ++ X) := dropLit?_append _ _
  have htw : (['e', 'f', 'i'] ++ X).takeWhile pySpace = [] :=
    takeWhile_headNonWs (headNonWs_append (by decide) (by decide))
  simp only [grubMatchAt, h1, htw, if_true]

theorem grubMatchAt_efi_at_linux {wc : Char} (ps Y : List Char)
    (hwc : pySpace wc = true) :
    grubMatchAt keyLinuxefi ps (keyLinux ++ (wc :: Y)) = none := by
  have hd : dropLit? keyLinuxefi (keyLinux ++ (wc :: Y)) = none := by
    rw [dropLit?, if_neg]
    intro h
    have h6 := congrArg (List.take 6) h
    rw [take_take_le _ (by decide)] at h6
    have hL : (keyLinux ++ (wc :: Y)).take 6 = keyLinux ++ [wc] := by
      rw [show (6 : Nat) = keyLinux.length + 1 from rfl, take_len_add_append]
      rfl
    rw [hL] at h6
    simp [keyLinux, keyLinuxefi] at h6
    rw [h6] at hwc
    exact absurd hwc (by decide)
  simp only [grubMatchAt, hd]

theorem isoMatchAt_eval {ps w rest : List Char} (hw : wsRun w) (hwne : w ≠ [])
    (hrest : headNonWs rest) :
    isoMatchAt ps (appendLit ++ (w ++ rest))
      = some (appendLit ++ w ++ ps ++ [' '], appendLit.length + w.length) := by
  have h1 : dropLit? appendLit (appendLit ++ (w ++ rest)) = some (w ++ rest) :=
    dropLit?_append _ _
  have htw : (w ++ rest).takeWhile pySpace = w := takeWhile_run hw hrest
  simp only [isoMatchAt, h1, htw, hwne, if_false]

/-! ### Token-splitting and space-collapse lemmas -/

theorem wordsGo_acc {w : List Char} (hw : ∀ c ∈ w, pySpace c = false) :
    ∀ (cur s : List Char), wordsGo cur (w ++ s) = wordsGo (w.reverse ++ cur) s := by
  induction w with
  | nil => intro cur s; simp
  | cons c w' ih =>
    intro cur s
    have hc : pySpace c = false := hw c (List.mem_cons_self _ _)
    rw [List.cons_append, wordsGo, if_neg (by rw [hc]; simp)]
    rw [ih (fun x hx => hw x (List.mem_cons_of_mem _ hx)) (c :: cur) s]
    congr 1
    simp

theorem wordsGo_ws_skip {p : List Char} (hp : wsRun p) (s : List Char) :
    wordsGo [] (p ++ s) = wordsGo [] s := by
  induction p with
  | nil => simp
  | cons c p' ih =>
    rw [List.cons_append, wordsGo, if_pos (hp c (List.mem_cons_self _ _)), if_pos rfl]
    exact ih fun x hx => hp x (List.mem_cons_of_mem _ hx)

theorem pyWords_word_cons {w s : List Char} (hw : ∀ c ∈ w, pySpace c = false)
    (hwne : w ≠ []) (hs : headWs s) :
    wordsGo [] (w ++ s) = w :: wordsGo [] s := by
  rw [wordsGo_acc hw, List.append_nil]
  cases s with
  | nil =>
    rw [wordsGo, if_neg (by simp [hwne]), List.reverse_reverse]
    rw [wordsGo, if_pos rfl]
  | cons c t =>
    have hc : pySpace c = true := hs c t rfl
    rw [wordsGo, if_pos hc, if_neg (by simp [hwne]), List.reverse_reverse]
    rw [wordsGo, if_pos hc, if_pos rfl]

theorem wordsGo_collapseGo :
    ∀ (s cur : List Char) (b : Bool), (b = true → cur = []) →
      wordsGo cur (collapseGo b s) = wordsGo cur s := by
  intro s
  induction s with
  | nil => intro cur b _; rfl
  | cons c rest ih =>
    intro cur b hb
    by_cases hc : c = ' '
    · subst hc
      by_cases hbt : b = true
      · rw [collapseGo, if_pos rfl, if_pos hbt]
        rw [hb hbt]
        rw [ih [] true (fun _ => rfl)]
        rw [wordsGo, if_pos (by decide), if_pos rfl]
      · have hbf : b = false := by revert hbt; cases b <;> simp
        rw [collapseGo, if_pos rfl, hbf, if_neg (by simp)]
        by_cases hcur : cur = []
        · subst hcur
          rw [wordsGo, if_pos (by decide), if_pos rfl]
          rw [wordsGo, if_pos (by decide), if_pos rfl]
          exact ih [] true (fun _ => rfl)
        · rw [wordsGo, if_pos (by decide), if_neg hcur]
          rw [wordsGo, if_pos (by decide), if_neg hcur]
          rw [ih [] true (fun _ => rfl)]
    · rw [collapseGo, if_neg hc]
      by_cases hws : pySpace c = true
      · by_cases hcur : cur = []
        · subst hcur
          rw [wordsGo, if_pos hws, if_pos rfl]
          rw [wordsGo, if_pos hws, if_pos rfl]
          exact ih [] false (by simp)
        · rw [wordsGo, if_pos hws, if_neg hcur]
          rw [wordsGo, if_pos hws, if_neg hcur]
          rw [ih [] false (by simp)]
      · rw [wordsGo, if_neg hws]
        rw [wordsGo, if_neg hws]
        exact ih (c :: cur) false (by simp)

theorem pyWords_collapse (s : List Char) : pyWords (collapseSpaces s) = pyWords s :=
  wordsGo_collapseGo s [] false (by simp)

theorem collapseGo_true_head :
    ∀ (rest t : List Char), collapseGo true rest = ' ' :: t → False := by
  intro rest
  induction rest with
  | nil => intro t h; exact List.noConfusion h
  | cons c r ih =>
    intro t h
    by_cases hc : c = ' '
    · subst hc
      rw [collapseGo, if_pos rfl, if_pos rfl] at h
      exact ih t h
    · rw [collapseGo, if_neg hc] at h
      injection h with h1 _
      exact hc h1

theorem collapse_no_double :
    ∀ (s : List Char) (b : Bool), occursB [' ', ' '] (collapseGo b s) = false := by
  intro s
  induction s with
  | nil => intro b; rfl
  | cons c rest ih =>
    intro b
    by_cases hc : c = ' '
    · subst hc
      by_cases hbt : b = true
      · rw [collapseGo, if_pos rfl, if_pos hbt]
        exact ih true
      · have hbf : b = false := by revert hbt; cases b <;> simp
        rw [collapseGo, if_pos rfl, hbf, if_neg (by simp)]
        rw [occursB, Bool.or_eq_false_iff]
        constructor
        · cases hx : collapseGo true rest with
          | nil => decide
          | cons x xs =>
            by_cases hxs : x = ' '
            · exact absurd (hxs ▸ hx) (fun hh => collapseGo_true_head rest xs hh)
            · simp [List.take_succ_cons, hxs]
        · exact ih true
    · rw [collapseGo, if_neg hc]
      rw [occursB, Bool.or_eq_false_iff]
      constructor
      · simp [List.take_succ_cons, hc]
      · exact ih false

theorem collapse_ne_of_double {s : List Char} (h : occursB [' ', ' '] s = true) :
    collapseSpaces s ≠ s := by
  intro he
  have h0 := collapse_no_double s false
  rw [collapseSpaces] at he
  rw [he, h] at h0
  exact Bool.noConfusion h0

/-! ### Dialect-level no-match assemblies -/

theorem grubMatch_ws_none {key ps : List Char} {c : Char} {t : List Char}
    (hkey : key = keyLinux ∨ key = keyLinuxefi) (hc : pySpace c = true) :
    grubMatchAt key ps (c :: t) = none := by
  cases h : grubMatchAt key ps (c :: t) with
  | none => rfl
  | some r =>
    have hl := grubMatchAt_head hkey h
    rw [hl] at hc
    exact absurd hc (by decide)

theorem isoMatch_ws_none {ps : List Char} {c : Char} {t : List Char}
    (hc : pySpace c = true) : isoMatchAt ps (c :: t) = none := by
  cases h : isoMatchAt ps (c :: t) with
  | none => rfl
  | some r =>
    have ha := isoMatchAt_head h
    rw [ha] at hc
    exact absurd hc (by decide)

theorem grubMatchAt_take5 {key ps s : List Char} {r : List Char × Nat}
    (hkey : key = keyLinux ∨ key = keyLinuxefi)
    (h : grubMatchAt key ps s = some r) : s.take keyLinux.length = keyLinux := by
  rcases hkey with rfl | rfl
  · exact grubMatchAt_take h
  · exact grubMatchAt_linuxefi_take5 h

theorem noMatchIn_grub_ws {key ps : List Char}
    (hkey : key = keyLinux ∨ key = keyLinuxefi) {a b : List Char}
    (ha : wsRun a) (hb : NoMatchIn (grubMatchAt key ps) b) :
    NoMatchIn (grubMatchAt key ps) (a ++ b) :=
  noMatchIn_append_of_ne_head (h := 'l')
    (fun _ _ _ h => grubMatchAt_head hkey h)
    (fun c hc heq => by
      have h2 := ha c hc
      rw [heq] at h2
      exact absurd h2 (by decide))
    hb

theorem noMatchIn_grub_check {key ps : List Char}
    (hkey : key = keyLinux ∨ key = keyLinuxefi) {a b : List Char}
    (hc : npmCheck keyLinux a = true) (hb : NoMatchIn (grubMatchAt key ps) b) :
    NoMatchIn (grubMatchAt key ps) (a ++ b) :=
  noMatchIn_append_of_check (fun _ _ h => grubMatchAt_take5 hkey h) hc hb

theorem noMatchIn_grub_occurs {key ps : List Char}
    (hkey : key = keyLinux ∨ key = keyLinuxefi) {s : List Char}
    (h : occursB keyLinux s = false) : NoMatchIn (grubMatchAt key ps) s :=
  noMatchIn_of_occursB (fun _ _ hh => grubMatchAt_take5 hkey hh) h

theorem noMatchIn_grub_casper_kern {key ps : List Char}
    (hkey : key = keyLinux ∨ key = keyLinuxefi) {kern X : List Char}
    (hkern : kern = vmlinuzLit ∨ kern = hweVmlinuzLit)
    (hX : NoMatchIn (grubMatchAt key ps) X) :
    NoMatchIn (grubMatchAt key ps) (casperLit ++ (kern ++ X)) := by
  apply noMatchIn_grub_check hkey (by decide)
  rcases hkern with rfl | rfl
  · exact noMatchIn_grub_check hkey (by decide) hX
  · exact noMatchIn_grub_check hkey (by decide) hX

theorem noMatchIn_grub_sitefail {key ps : List Char}
    (hkey : key = keyLinux ∨ key = keyLinuxefi) {X : List Char}
    (hfail : grubMatchAt key ps (key ++ X) = none)
    (hX : NoMatchIn (grubMatchAt key ps) X) :
    NoMatchIn (grubMatchAt key ps) (key ++ X) := by
  rcases hkey with rfl | rfl
  · have heq : keyLinux ++ X = 'l' :: (['i', 'n', 'u', 'x'] ++ X) := rfl
    rw [heq] at hfail ⊢
    exact noMatchIn_cons hfail
      (noMatchIn_append_of_ne_head (fun _ _ _ h => grubMatchAt_head (Or.inl rfl) h)
        (by decide) hX)
  · have heq : keyLinuxefi ++ X = 'l' :: (['i', 'n', 'u', 'x', 'e', 'f', 'i'] ++ X) := rfl
    rw [heq] at hfail ⊢
    exact noMatchIn_cons hfail
      (noMatchIn_append_of_ne_head (fun _ _ _ h => grubMatchAt_head (Or.inr rfl) h)
        (by decide) hX)

theorem noMatchIn_linux_at_efi {ps X : List Char}
    (hX : NoMatchIn (grubMatchAt keyLinux ps) X) :
    NoMatchIn (grubMatchAt keyLinux ps) (keyLinuxefi ++ X) := by
  have heq : keyLinuxefi ++ X = 'l' :: (['i', 'n', 'u', 'x', 'e', 'f', 'i'] ++ X) := rfl
  have hfail := grubMatchAt_linux_at_efi ps X
  rw [heq] at hfail ⊢
  exact noMatchIn_cons hfail
    (noMatchIn_append_of_ne_head (fun _ _ _ h => grubMatchAt_head (Or.inl rfl) h)
      (by decide) hX)

theorem noMatchIn_efi_at_linux {ps : List Char} {w1 Y : List Char}
    (hw1 : wsRun w1) (hw1n : w1 ≠ [])
    (hrest : NoMatchIn (grubMatchAt keyLinuxefi ps) (w1 ++ Y)) :
    NoMatchIn (grubMatchAt keyLinuxefi ps) (keyLinux ++ (w1 ++ Y)) := by
  match w1, hw1n with
  | wc :: w1', _ =>
    have hwc : pySpace wc = true := hw1 wc (List.mem_cons_self _ _)
    have heq : keyLinux ++ ((wc :: w1') ++ Y)
        = 'l' :: (['i', 'n', 'u', 'x'] ++ (wc :: (w1' ++ Y))) := rfl
    have hfail := grubMatchAt_efi_at_linux ps (w1' ++ Y) hwc
    have heq2 : keyLinux ++ (wc :: (w1' ++ Y)) = keyLinux ++ ((wc :: w1') ++ Y) := rfl
    rw [heq2, heq] at hfail
    rw [heq]
    exact noMatchIn_cons hfail
      (noMatchIn_append_of_ne_head (fun _ _ _ h => grubMatchAt_head (Or.inr rfl) h)
        (by decide) hrest)

theorem pass_ws_grub {key ps : List Char}
    (hkey : key = keyLinux ∨ key = keyLinuxefi) {pre : List Char} (s : List Char)
    (hpre : wsRun pre) :
    ∀ t ∈ pre.tails, t ≠ [] → grubMatchAt key ps (t ++ s) = none := by
  intro t ht hne
  match t, hne with
  | c :: t', _ =>
    have hc : pySpace c = true :=
      hpre c (((List.mem_tails _ _).mp ht).subset (List.mem_cons_self _ _))
    rw [List.cons_append]
    exact grubMatch_ws_none hkey hc

theorem pass_ws_iso {ps : List Char} {pre : List Char} (s : List Char)
    (hpre : wsRun pre) :
    ∀ t ∈ pre.tails, t ≠ [] → isoMatchAt ps (t ++ s) = none := by
  intro t ht hne
  match t, hne with
  | c :: t', _ =>
    have hc : pySpace c = true :=
      hpre c (((List.mem_tails _ _).mp ht).subset (List.mem_cons_self _ _))
    rw [List.cons_append]
    exact isoMatch_ws_none hc

theorem noMatchIn_iso_ws {ps : List Char} {a b : List Char}
    (ha : wsRun a) (hb : NoMatchIn (isoMatchAt ps) b) :
    NoMatchIn (isoMatchAt ps) (a ++ b) :=
  noMatchIn_append_of_ne_head (h := 'a')
    (fun _ _ _ h => isoMatchAt_head h)
    (fun c hc heq => by
      have h2 := ha c hc
      rw [heq] at h2
      exact absurd h2 (by decide))
    hb

theorem noMatchIn_iso_occurs {ps : List Char} {s : List Char}
    (h : occursB appendLit s = false) : NoMatchIn (isoMatchAt ps) s :=
  noMatchIn_of_occursB (fun _ _ hh => isoMatchAt_take hh) h

/-! ### Substitution results on matching lines -/

theorem grubMatchAt_nil {key ps : List Char}
    (hkey : key = keyLinux ∨ key = keyLinuxefi) : grubMatchAt key ps [] = none := by
  have hd : dropLit? key [] = none := by
    rcases hkey with rfl | rfl <;> simp [dropLit?, keyLinux, keyLinuxefi]
  simp only [grubMatchAt, hd]

theorem headWs_append_of_ne {a b : List Char} (ha : wsRun a) (hane : a ≠ []) :
    headWs (a ++ b) := by
  intro c t h
  match a, hane with
  | x :: a', _ =>
    rw [List.cons_append] at h
    injection h with h1 _
    rw [← h1]
    exact ha x (List.mem_cons_self _ _)

theorem headWs_of_wsRun {a : List Char} (ha : wsRun a) : headWs a := by
  intro c t h
  rw [h] at ha
  exact ha c (List.mem_cons_self _ _)

theorem headWs_space_cons (X : List Char) : headWs ([' '] ++ X) := by
  intro c t h
  rw [List.cons_append] at h
  injection h with h1 _
  rw [← h1]
  decide

theorem isoSub_line {ps pre w rest : List Char} (hpre : wsRun pre)
    (hw : wsRun w) (hwn : w ≠ []) (hrest : headNonWs rest)
    (hocc : occursB appendLit rest = false) :
    isoSub ps (pre ++ (appendLit ++ (w ++ rest)))
      = pre ++ ((appendLit ++ w ++ ps ++ [' ']) ++ rest) := by
  rw [isoSub, reSub_pass (pass_ws_iso _ hpre)]
  have hm := @isoMatchAt_eval ps w rest hw hwn hrest
  have hk : 1 ≤ appendLit.length + w.length := by simp [appendLit]; omega
  rw [reSub_match (by simp [appendLit]) hm hk]
  have hdrop : (appendLit ++ (w ++ rest)).drop (appendLit.length + w.length) = rest := by
    rw [show appendLit ++ (w ++ rest) = (appendLit ++ w) ++ rest from by
        rw [List.append_assoc],
      show appendLit.length + w.length = (appendLit ++ w).length from by
        rw [List.length_append]]
    exact drop_len_append _ _
  rw [hdrop, reSub_id (noMatchIn_iso_occurs hocc)]

theorem grubSub_line {key ps pre w1 kern g2 postRem : List Char}
    (hkey : key = keyLinux ∨ key = keyLinuxefi)
    (hpre : wsRun pre) (hw1 : wsRun w1) (hw1n : w1 ≠ [])
    (hkern : kern = vmlinuzLit ∨ kern = hweVmlinuzLit)
    (hg2 : grubG2 (g2 ++ postRem) = some g2)
    (hpost : NoMatchIn (grubMatchAt key ps) postRem) :
    reSub (grubMatchAt key ps)
        (pre ++ (key ++ (w1 ++ (casperLit ++ (kern ++ (g2 ++ postRem))))))
      = pre ++ (((key ++ w1 ++ casperLit ++ kern) ++ ' ' :: (ps ++ g2)) ++ postRem) := by
  rw [reSub_pass (pass_ws_grub hkey _ hpre)]
  have hsne : key ++ (w1 ++ (casperLit ++ (kern ++ (g2 ++ postRem)))) ≠ [] := by
    rcases hkey with rfl | rfl <;> simp [keyLinux, keyLinuxefi]
  congr 1
  rcases hkern with rfl | rfl
  · have hm := @grubMatchAt_eval_v key ps w1 (g2 ++ postRem) g2 hw1 hw1n hg2
    have hk : 1 ≤ (key ++ w1 ++ casperLit ++ vmlinuzLit).length + g2.length := by
      rcases hkey with rfl | rfl <;>
        simp [keyLinux, keyLinuxefi, casperLit, vmlinuzLit, List.length_append] <;>
        omega
    rw [reSub_match hsne hm hk]
    have hdropEq : (key ++ (w1 ++ (casperLit ++ (vmlinuzLit ++ (g2 ++ postRem))))).drop
        ((key ++ w1 ++ casperLit ++ vmlinuzLit).length + g2.length) = postRem := by
      rw [show key ++ (w1 ++ (casperLit ++ (vmlinuzLit ++ (g2 ++ postRem))))
          = ((key ++ w1 ++ casperLit ++ vmlinuzLit) ++ g2) ++ postRem from by
          simp [List.append_assoc],
        show (key ++ w1 ++ casperLit ++ vmlinuzLit).length + g2.length
          = ((key ++ w1 ++ casperLit ++ vmlinuzLit) ++ g2).length from by
          simp [List.length_append]; omega]
      exact drop_len_append _ _
    rw [hdropEq, reSub_id hpost]
  · have hm := @grubMatchAt_eval_h key ps w1 (g2 ++ postRem) g2 hw1 hw1n hg2
    have hk : 1 ≤ (key ++ w1 ++ casperLit ++ hweVmlinuzLit).length + g2.length := by
      rcases hkey with rfl | rfl <;>
        simp [keyLinux, keyLinuxefi, casperLit, hweVmlinuzLit, vmlinuzLit,
          List.length_append] <;>
        omega
    rw [reSub_match hsne hm hk]
    have hdropEq : (key ++ (w1 ++ (casperLit ++ (hweVmlinuzLit ++ (g2 ++ postRem))))).drop
        ((key ++ w1 ++ casperLit ++ hweVmlinuzLit).length + g2.length) = postRem := by
      rw [show key ++ (w1 ++ (casperLit ++ (hweVmlinuzLit ++ (g2 ++ postRem))))
          = ((key ++ w1 ++ casperLit ++ hweVmlinuzLit) ++ g2) ++ postRem from by
          simp [List.append_assoc],
        show (key ++ w1 ++ casperLit ++ hweVmlinuzLit).length + g2.length
          = ((key ++ w1 ++ casperLit ++ hweVmlinuzLit) ++ g2).length from by
          simp [List.length_append]; omega]
      exact drop_len_append _ _
    rw [hdropEq, reSub_id hpost]

theorem noMatchIn_grub_tailchunk {key2 ps : List Char}
    (hkey2 : key2 = keyLinux ∨ key2 = keyLinuxefi) {g2 postRem : List Char}
    (hT : (∃ w2 w3, g2 = w2 ++ dashes ++ w3 ∧ wsRun w2 ∧ wsRun w3) ∨
      (wsRun g2 ∧ postRem = []))
    (hocc : occursB keyLinux postRem = false) :
    NoMatchIn (grubMatchAt key2 ps) (g2 ++ postRem) := by
  have hpostNM : NoMatchIn (grubMatchAt key2 ps) postRem :=
    noMatchIn_grub_occurs hkey2 hocc
  rcases hT with ⟨w2, w3, rfl, hw2, hw3⟩ | ⟨hws, rfl⟩
  · have heq : (w2 ++ dashes ++ w3) ++ postRem = w2 ++ (dashes ++ (w3 ++ postRem)) := by
      simp [List.append_assoc]
    rw [heq]
    exact noMatchIn_grub_ws hkey2 hw2
      (noMatchIn_grub_check hkey2 (by decide) (noMatchIn_grub_ws hkey2 hw3 hpostNM))
  · exact noMatchIn_grub_ws hkey2 hws (noMatchIn_nil (grubMatchAt_nil hkey2))

/-! ### Claim theorems -/

/-- Claim C1 (code bug evaluation): the ISOLINUX rule set is not idempotent.
Applying the full ISOLINUX pipeline (rule plus space collapse) twice to the
line `append initrd=/casper/initrd` inserts the autoinstall directive a second
time, because `(append\s+)` matches the already-patched line again; the spec
requires the second pass not to duplicate the directive. -/
theorem claim1_code_bug_eval :
    isoPipeline defParams (isoPipeline defParams ("append initrd=/casper/initrd").data)
      = ("append autoinstall ds=nocloud-net;s=http://10.0.2.2:8080/ autoinstall ds=nocloud-net;s=http://10.0.2.2:8080/ initrd=/casper/initrd").data ∧
    isoPipeline defParams (isoPipeline defParams ("append initrd=/casper/initrd").data)
      ≠ isoPipeline defParams ("append initrd=/casper/initrd").data := by
  constructor
  · decide
  · decide

/-- Claim C3: the mastering command is the fixed six-token prelude ending in
the output flag and path, followed by exactly the extracted boot arguments in
order, followed by the working-tree path as final argument. -/
theorem claim3_cmd_tokens (outputIso : String) (bootArgs : List String) (isoDir : String) :
    (createIsoCmd outputIso bootArgs isoDir).take 6
      = ["xorriso", "-as", "mkisofs", "-r", "-o", outputIso] ∧
    (createIsoCmd outputIso bootArgs isoDir).drop 6 = bootArgs ++ [isoDir] := by
  have h : createIsoCmd outputIso bootArgs isoDir
      = ["xorriso", "-as", "mkisofs", "-r", "-o", outputIso] ++ (bootArgs ++ [isoDir]) := by
    rw [createIsoCmd, List.append_assoc]
  constructor
  · rw [h, show (6 : Nat)
      = (["xorriso", "-as", "mkisofs", "-r", "-o", outputIso]).length from rfl]
    exact List.take_left _ _
  · rw [h, show (6 : Nat)
      = (["xorriso", "-as", "mkisofs", "-r", "-o", outputIso]).length from rfl]
    exact List.drop_left _ _

/-- Claim C4: when the build (not in validate-only mode) reaches the
output-existence check and the output image already exists, it returns
success with the world unchanged: no extraction, no config patching, no
mastering, no modification of the output or of any config file. -/
theorem claim4_output_exists_short_circuit (ps : List Char) (w : World)
    (h : w.outputExists = true) :
    build true true false ps w = Except.ok w := by
  simp [build, h]

/-- Witness for C4 at a concrete world. -/
theorem claim4_witness :
    (World.mk [] [] true false false none).outputExists = true ∧
    build true true false defParams (World.mk [] [] true false false none)
      = Except.ok (World.mk [] [] true false false none) :=
  ⟨rfl, claim4_output_exists_short_circuit defParams _ rfl⟩

/-- Claim C5: a file path that does not exist is reported as "not modified"
with no error by the config patcher, for any rule set, and nothing is
written. -/
theorem claim5_absent_file (rules : List (List Char → List Char)) :
    modifyFileWithPatterns rules none = (false, none, none) := rfl

/-- Claim C6: the GRUB rule set with endpoint 10.0.2.2:8080 rewrites the
config line `linux /casper/vmlinuz ---` (a line of a config file, i.e.
terminated by a newline) to
`linux /casper/vmlinuz autoinstall ds=nocloud-net;s=http://10.0.2.2:8080/ ---`. -/
theorem claim6_grub_example :
    grubPipeline defParams ("linux /casper/vmlinuz ---\n").data
      = ("linux /casper/vmlinuz autoinstall ds=nocloud-net;s=http://10.0.2.2:8080/ ---\n").data := by
  decide

/-- Claim C7: the ISOLINUX rule set with endpoint 10.0.2.2:8080 rewrites the
line `append initrd=/casper/initrd` to
`append autoinstall ds=nocloud-net;s=http://10.0.2.2:8080/ initrd=/casper/initrd`. -/
theorem claim7_isolinux_example :
    isoPipeline defParams ("append initrd=/casper/initrd").data
      = ("append autoinstall ds=nocloud-net;s=http://10.0.2.2:8080/ initrd=/casper/initrd").data := by
  decide

/-- Claim C8: after the mastering command reports success, a missing output
file is a fatal error; an output smaller than 1 MiB is a fatal error; an
existing output of at least 1 MiB is reported as success. -/
theorem claim8_output_checks (w : World) (ex : Bool) (n : Nat)
    (h : w.masterOutcome = some (ex, n)) :
    (ex = false → createIsoStep w = Except.error "Output ISO was not created") ∧
    (ex = true → n < 1048576 →
      createIsoStep w = Except.error "Output ISO seems too small") ∧
    (ex = true → 1048576 ≤ n →
      createIsoStep w = Except.ok
        (World.mk w.grubConfigs w.isoConfigs true w.extracted true w.masterOutcome)) := by
  refine ⟨fun hex => ?_, fun hex hn => ?_, fun hex hn => ?_⟩
  · simp only [createIsoStep, h]
    rw [if_pos hex]
  · simp only [createIsoStep, h]
    rw [if_neg (by rw [hex]; simp), if_pos hn]
  · simp only [createIsoStep, h]
    rw [if_neg (by rw [hex]; simp), if_neg (by omega)]

/-- Witness for C8 at three concrete worlds, one per outcome. -/
theorem claim8_witness :
    createIsoStep (World.mk [] [] false false false (some (false, 0)))
      = Except.error "Output ISO was not created" ∧
    createIsoStep (World.mk [] [] false false false (some (true, 100)))
      = Except.error "Output ISO seems too small" ∧
    createIsoStep (World.mk [] [] false false false (some (true, 2000000)))
      = Except.ok (World.mk [] [] true false true (some (true, 2000000))) :=
  ⟨(claim8_output_checks _ false 0 rfl).1 rfl,
   (claim8_output_checks _ true 100 rfl).2.1 rfl (by decide),
   (claim8_output_checks _ true 2000000 rfl).2.2 rfl (by decide)⟩

/-- Claim C10: an existing file on which the rules make no change but whose
text contains a run of two or more spaces is reported as modified, a backup of
the original text is written, and the file is rewritten with spaces
collapsed. -/
theorem claim10_collapse_triggers_modify (rules : List (List Char → List Char))
    (content : List Char) (hid : applyPatterns rules content = content)
    (hds : occursB [' ', ' '] content = true) :
    modifyFileWithPatterns rules (some content)
      = (true, some (collapseSpaces content), some content) := by
  simp only [modifyFileWithPatterns, hid]
  rw [if_neg (collapse_ne_of_double hds)]

/-- Witness for C10: a comment line with a double space and the GRUB rules. -/
theorem claim10_witness :
    applyPatterns (grubRules defParams) ("# menu  entry").data = ("# menu  entry").data ∧
    occursB [' ', ' '] ("# menu  entry").data = true ∧
    modifyFileWithPatterns (grubRules defParams) (some ("# menu  entry").data)
      = (true, some (collapseSpaces ("# menu  entry").data), some ("# menu  entry").data) :=
  ⟨by decide, by decide,
   claim10_collapse_triggers_modify (grubRules defParams) _ (by decide) (by decide)⟩

/-- Counterexample for claim C2 as stated: the ISOLINUX line
`append autoinstall ds=nocloud-net;s=http://10.0.2.2:8080/ x` matches the
`(append\s+)` pattern, yet after one application of the rule set the line
contains two occurrences of the autoinstall directive, not exactly one. -/
theorem claim2_counterexample :
    (isoMatchAt defParams
      ("append autoinstall ds=nocloud-net;s=http://10.0.2.2:8080/ x").data).isSome = true ∧
    countOcc defParams (isoPipeline defParams
      ("append autoinstall ds=nocloud-net;s=http://10.0.2.2:8080/ x").data) = 2 := by
  constructor
  · decide
  · decide

/-- Claim C2 (amended): for a config line with a single kernel/append match
site whose following text neither matches again nor already contains the
directive, one application of the dialect's rule set yields a line whose
token sequence is exactly the captured keyword followed immediately by the
two directive tokens, with every originally-following token preserved in
order, and the directive token appears exactly once. -/
theorem claim2_amended :
    (∀ pre w rest, wsRun pre → wsRun w → w ≠ [] → headNonWs rest →
      occursB appendLit rest = false → autoTok ∉ pyWords rest →
      pyWords (isoPipeline defParams (pre ++ (appendLit ++ (w ++ rest))))
        = appendLit :: autoTok :: dsTok :: pyWords rest ∧
      (pyWords (isoPipeline defParams (pre ++ (appendLit ++ (w ++ rest))))).count autoTok
        = 1) ∧
    (∀ pre key kern w1 tail tw,
      key = keyLinux ∨ key = keyLinuxefi →
      kern = vmlinuzLit ∨ kern = hweVmlinuzLit →
      wsRun pre → wsRun w1 → w1 ≠ [] → GrubTail tail tw →
      pyWords (grubPipeline defParams
          (pre ++ (key ++ (w1 ++ (casperLit ++ (kern ++ tail))))))
        = key :: (casperLit ++ kern) :: autoTok :: dsTok :: tw ∧
      (pyWords (grubPipeline defParams
          (pre ++ (key ++ (w1 ++ (casperLit ++ (kern ++ tail))))))).count autoTok
        = 1) := by
  constructor
  · intro pre w rest hpre hw hwn hrest hocc hnotin
    have hwords : pyWords (isoPipeline defParams (pre ++ (appendLit ++ (w ++ rest))))
        = appendLit :: autoTok :: dsTok :: pyWords rest := by
      rw [isoPipeline, pyWords_collapse, isoSub_line hpre hw hwn hrest hocc]
      simp only [pyWords]
      rw [wordsGo_ws_skip hpre]
      rw [show (appendLit ++ w ++ defParams ++ [' ']) ++ rest
          = appendLit ++ (w ++ (defParams ++ ([' '] ++ rest))) from by
          simp [List.append_assoc]]
      rw [pyWords_word_cons (by decide) (by decide) (headWs_append_of_ne hw hwn)]
      rw [wordsGo_ws_skip hw]
      rw [show defParams ++ ([' '] ++ rest)
          = autoTok ++ ([' '] ++ (dsTok ++ ([' '] ++ rest))) from by
          rw [show defParams = autoTok ++ ([' '] ++ dsTok) from by decide]
          simp [List.append_assoc]]
      rw [pyWords_word_cons (by decide) (by decide) (headWs_space_cons _)]
      rw [wordsGo_ws_skip (by decide)]
      rw [pyWords_word_cons (by decide) (by decide) (headWs_space_cons _)]
      rw [wordsGo_ws_skip (by decide)]
    refine ⟨hwords, ?_⟩
    rw [hwords]
    have h0 : List.count autoTok (pyWords rest) = 0 := List.count_eq_zero.mpr hnotin
    rw [List.count_cons_of_ne (by decide), List.count_cons_self,
      List.count_cons_of_ne (by decide), h0]
  · intro pre key kern w1 tail tw hkey hkern hpre hw1 hw1n htail
    rcases htail with
      ⟨w2, w3, post, rfl, hw2, hw2n, hw3, hw3n, hpostH, hpocc, hpnotin, rfl⟩ |
      ⟨hws, rfl⟩
    · -- tail is `\s+---\s+` followed by the rest of the line
      have hg2 : grubG2 ((w2 ++ dashes ++ w3) ++ post) = some (w2 ++ dashes ++ w3) := by
        rw [show (w2 ++ dashes ++ w3) ++ post = w2 ++ (dashes ++ (w3 ++ post)) from by
          simp [List.append_assoc]]
        exact grubG2_dashes hw2 hw2n hw3 hw3n hpostH
      have hwordsX : ∀ keyv : List Char, (keyv = keyLinux ∨ keyv = keyLinuxefi) →
          pyWords (pre ++ (((keyv ++ w1 ++ casperLit ++ kern)
              ++ ' ' :: (defParams ++ (w2 ++ dashes ++ w3))) ++ post))
            = keyv :: (casperLit ++ kern) :: autoTok :: dsTok ::
                (dashes :: pyWords post) := by
        intro keyv hkeyv
        rw [show pre ++ (((keyv ++ w1 ++ casperLit ++ kern)
              ++ ' ' :: (defParams ++ (w2 ++ dashes ++ w3))) ++ post)
            = pre ++ (keyv ++ (w1 ++ ((casperLit ++ kern) ++ ([' ']
              ++ (autoTok ++ ([' '] ++ (dsTok
              ++ (w2 ++ (dashes ++ (w3 ++ post)))))))))) from by
          rw [show defParams = autoTok ++ ([' '] ++ dsTok) from by decide]
          simp [List.append_assoc]]
        simp only [pyWords]
        rw [wordsGo_ws_skip hpre]
        rw [pyWords_word_cons
          (by rcases hkeyv with rfl | rfl <;> decide)
          (by rcases hkeyv with rfl | rfl <;> decide)
          (headWs_append_of_ne hw1 hw1n)]
        rw [wordsGo_ws_skip hw1]
        rw [pyWords_word_cons
          (by rcases hkern with rfl | rfl <;> decide)
          (by rcases hkern with rfl | rfl <;> decide)
          (headWs_space_cons _)]
        rw [wordsGo_ws_skip (by decide)]
        rw [pyWords_word_cons (by decide) (by decide) (headWs_space_cons _)]
        rw [wordsGo_ws_skip (by decide)]
        rw [pyWords_word_cons (by decide) (by decide)
          (headWs_append_of_ne hw2 hw2n)]
        rw [wordsGo_ws_skip hw2]
        rw [pyWords_word_cons (by decide) (by decide)
          (headWs_append_of_ne hw3 hw3n)]
        rw [wordsGo_ws_skip hw3]
      have hcount : ∀ keyv : List Char, (keyv = keyLinux ∨ keyv = keyLinuxefi) →
          (keyv :: (casperLit ++ kern) :: autoTok :: dsTok ::
              (dashes :: pyWords post)).count autoTok = 1 := by
        intro keyv hkeyv
        have h0 : List.count autoTok (pyWords post) = 0 := List.count_eq_zero.mpr hpnotin
        rw [List.count_cons_of_ne (by rcases hkeyv with rfl | rfl <;> decide),
          List.count_cons_of_ne (by rcases hkern with rfl | rfl <;> decide),
          List.count_cons_self, List.count_cons_of_ne (by decide),
          List.count_cons_of_ne (by decide), h0]
      rcases hkey with rfl | rfl
      · -- linux line: first pattern fires, second is a no-op
        have hpostNM : NoMatchIn (grubMatchAt keyLinux defParams) post :=
          noMatchIn_grub_occurs (Or.inl rfl) hpocc
        have hpass1 := @grubSub_line keyLinux defParams pre w1 kern _ _
          (Or.inl rfl) hpre hw1 hw1n hkern hg2 hpostNM
        have hNM2 : NoMatchIn (grubMatchAt keyLinuxefi defParams)
            (pre ++ (keyLinux ++ (w1 ++ (casperLit ++ (kern ++ ([' ']
              ++ (defParams ++ ((w2 ++ dashes ++ w3) ++ post)))))))) := by
          apply noMatchIn_grub_ws (Or.inr rfl) hpre
          apply noMatchIn_efi_at_linux hw1 hw1n
          apply noMatchIn_grub_ws (Or.inr rfl) hw1
          apply noMatchIn_grub_casper_kern (Or.inr rfl) hkern
          apply noMatchIn_grub_ws (Or.inr rfl) (by decide)
          apply noMatchIn_grub_check (Or.inr rfl) (by decide)
          exact @noMatchIn_grub_tailchunk keyLinuxefi defParams (Or.inr rfl) _ _
            (Or.inl ⟨w2, w3, rfl, hw2, hw3⟩) hpocc
        have hid : linuxefiSub defParams
            (pre ++ (((keyLinux ++ w1 ++ casperLit ++ kern)
              ++ ' ' :: (defParams ++ (w2 ++ dashes ++ w3))) ++ post))
            = pre ++ (((keyLinux ++ w1 ++ casperLit ++ kern)
              ++ ' ' :: (defParams ++ (w2 ++ dashes ++ w3))) ++ post) := by
          rw [linuxefiSub]
          rw [show pre ++ (((keyLinux ++ w1 ++ casperLit ++ kern)
              ++ ' ' :: (defParams ++ (w2 ++ dashes ++ w3))) ++ post)
            = pre ++ (keyLinux ++ (w1 ++ (casperLit ++ (kern ++ ([' ']
              ++ (defParams ++ ((w2 ++ dashes ++ w3) ++ post))))))) from by
            simp [List.append_assoc]]
          exact reSub_id hNM2
        rw [grubPipeline, grubRulesOnly, linuxSub, hpass1, hid, pyWords_collapse]
        exact ⟨hwordsX keyLinux (Or.inl rfl), by
          rw [hwordsX keyLinux (Or.inl rfl)]
          exact hcount keyLinux (Or.inl rfl)⟩
      · -- linuxefi line: first pattern is a no-op, second fires
        have hpostNM : NoMatchIn (grubMatchAt keyLinuxefi defParams) post :=
          noMatchIn_grub_occurs (Or.inr rfl) hpocc
        have hNM1 : NoMatchIn (grubMatchAt keyLinux defParams)
            (pre ++ (keyLinuxefi ++ (w1 ++ (casperLit
              ++ (kern ++ ((w2 ++ dashes ++ w3) ++ post)))))) := by
          apply noMatchIn_grub_ws (Or.inl rfl) hpre
          apply noMatchIn_linux_at_efi
          apply noMatchIn_grub_ws (Or.inl rfl) hw1
          apply noMatchIn_grub_casper_kern (Or.inl rfl) hkern
          exact @noMatchIn_grub_tailchunk keyLinux defParams (Or.inl rfl) _ _
            (Or.inl ⟨w2, w3, rfl, hw2, hw3⟩) hpocc
        have hpass1 : linuxSub defParams
            (pre ++ (keyLinuxefi ++ (w1 ++ (casperLit
              ++ (kern ++ ((w2 ++ dashes ++ w3) ++ post))))))
            = pre ++ (keyLinuxefi ++ (w1 ++ (casperLit
              ++ (kern ++ ((w2 ++ dashes ++ w3) ++ post))))) := by
          rw [linuxSub]
          exact reSub_id hNM1
        have hpass2 := @grubSub_line keyLinuxefi defParams pre w1 kern _ _
          (Or.inr rfl) hpre hw1 hw1n hkern hg2 hpostNM
        rw [grubPipeline, grubRulesOnly, hpass1, linuxefiSub, hpass2, pyWords_collapse]
        exact ⟨hwordsX keyLinuxefi (Or.inr rfl), by
          rw [hwordsX keyLinuxefi (Or.inr rfl)]
          exact hcount keyLinuxefi (Or.inr rfl)⟩
    · -- tail is trailing whitespace up to the end of the text
      have hg2 : grubG2 (tail ++ []) = some tail := by
        rw [List.append_nil]
        exact grubG2_ws hws
      have hlineEq : pre ++ (key ++ (w1 ++ (casperLit ++ (kern ++ tail))))
          = pre ++ (key ++ (w1 ++ (casperLit ++ (kern ++ (tail ++ [])))))  := by
        simp
      have hwordsX : ∀ keyv : List Char, (keyv = keyLinux ∨ keyv = keyLinuxefi) →
          pyWords (pre ++ (((keyv ++ w1 ++ casperLit ++ kern)
              ++ ' ' :: (defParams ++ tail)) ++ []))
            = keyv :: (casperLit ++ kern) :: autoTok :: dsTok :: [] := by
        intro keyv hkeyv
        rw [show pre ++ (((keyv ++ w1 ++ casperLit ++ kern)
              ++ ' ' :: (defParams ++ tail)) ++ [])
            = pre ++ (keyv ++ (w1 ++ ((casperLit ++ kern) ++ ([' ']
              ++ (autoTok ++ ([' '] ++ (dsTok ++ (tail ++ [])))))))) from by
          rw [show defParams = autoTok ++ ([' '] ++ dsTok) from by decide]
          simp [List.append_assoc]]
        simp only [pyWords]
        rw [wordsGo_ws_skip hpre]
        rw [pyWords_word_cons
          (by rcases hkeyv with rfl | rfl <;> decide)
          (by rcases hkeyv with rfl | rfl <;> decide)
          (headWs_append_of_ne hw1 hw1n)]
        rw [wordsGo_ws_skip hw1]
        rw [pyWords_word_cons
          (by rcases hkern with rfl | rfl <;> decide)
          (by rcases hkern with rfl | rfl <;> decide)
          (headWs_space_cons _)]
        rw [wordsGo_ws_skip (by decide)]
        rw [pyWords_word_cons (by decide) (by decide) (headWs_space_cons _)]
        rw [wordsGo_ws_skip (by decide)]
        rw [pyWords_word_cons (by decide) (by decide)
          (by rw [List.append_nil]; exact headWs_of_wsRun hws)]
        rw [wordsGo_ws_skip hws]
        rfl
      have hcount : ∀ keyv : List Char, (keyv = keyLinux ∨ keyv = keyLinuxefi) →
          (keyv :: (casperLit ++ kern) :: autoTok :: dsTok :: ([] : List (List Char))).count
            autoTok = 1 := by
        intro keyv hkeyv
        rw [List.count_cons_of_ne (by rcases hkeyv with rfl | rfl <;> decide),
          List.count_cons_of_ne (by rcases hkern with rfl | rfl <;> decide),
          List.count_cons_self, List.count_cons_of_ne (by decide)]
        rfl
      rcases hkey with rfl | rfl
      · have hpostNM : NoMatchIn (grubMatchAt keyLinux defParams) ([] : List Char) :=
          noMatchIn_nil (grubMatchAt_nil (Or.inl rfl))
        have hpass1 := @grubSub_line keyLinux defParams pre w1 kern _ _
          (Or.inl rfl) hpre hw1 hw1n hkern hg2 hpostNM
        have hNM2 : NoMatchIn (grubMatchAt keyLinuxefi defParams)
            (pre ++ (keyLinux ++ (w1 ++ (casperLit ++ (kern ++ ([' ']
              ++ (defParams ++ (tail ++ [])))))))) := by
          apply noMatchIn_grub_ws (Or.inr rfl) hpre
          apply noMatchIn_efi_at_linux hw1 hw1n
          apply noMatchIn_grub_ws (Or.inr rfl) hw1
          apply noMatchIn_grub_casper_kern (Or.inr rfl) hkern
          apply noMatchIn_grub_ws (Or.inr rfl) (by decide)
          apply noMatchIn_grub_check (Or.inr rfl) (by decide)
          exact @noMatchIn_grub_tailchunk keyLinuxefi defParams (Or.inr rfl) _ _
            (Or.inr ⟨hws, rfl⟩) (by decide)
        have hid : linuxefiSub defParams
            (pre ++ (((keyLinux ++ w1 ++ casperLit ++ kern)
              ++ ' ' :: (defParams ++ tail)) ++ []))
            = pre ++ (((keyLinux ++ w1 ++ casperLit ++ kern)
              ++ ' ' :: (defParams ++ tail)) ++ []) := by
          rw [linuxefiSub]
          rw [show pre ++ (((keyLinux ++ w1 ++ casperLit ++ kern)
              ++ ' ' :: (defParams ++ tail)) ++ [])
            = pre ++ (keyLinux ++ (w1 ++ (casperLit ++ (kern ++ ([' ']
              ++ (defParams ++ (tail ++ []))))))) from by
            simp [List.append_assoc]]
          exact reSub_id hNM2
        rw [hlineEq, grubPipeline, grubRulesOnly, linuxSub, hpass1, hid,
          pyWords_collapse]
        exact ⟨hwordsX keyLinux (Or.inl rfl), by
          rw [hwordsX keyLinux (Or.inl rfl)]
          exact hcount keyLinux (Or.inl rfl)⟩
      · have hpostNM : NoMatchIn (grubMatchAt keyLinuxefi defParams) ([] : List Char) :=
          noMatchIn_nil (grubMatchAt_nil (Or.inr rfl))
        have hNM1 : NoMatchIn (grubMatchAt keyLinux defParams)
            (pre ++ (keyLinuxefi ++ (w1 ++ (casperLit ++ (kern ++ (tail ++ [])))))) := by
          apply noMatchIn_grub_ws (Or.inl rfl) hpre
          apply noMatchIn_linux_at_efi
          apply noMatchIn_grub_ws (Or.inl rfl) hw1
          apply noMatchIn_grub_casper_kern (Or.inl rfl) hkern
          exact @noMatchIn_grub_tailchunk keyLinux defParams (Or.inl rfl) _ _
            (Or.inr ⟨hws, rfl⟩) (by decide)
        have hpass1 : linuxSub defParams
            (pre ++ (keyLinuxefi ++ (w1 ++ (casperLit ++ (kern ++ (tail ++ []))))))
            = pre ++ (keyLinuxefi ++ (w1 ++ (casperLit ++ (kern ++ (tail ++ []))))) := by
          rw [linuxSub]
          exact reSub_id hNM1
        have hpass2 := @grubSub_line keyLinuxefi defParams pre w1 kern _ _
          (Or.inr rfl) hpre hw1 hw1n hkern hg2 hpostNM
        rw [hlineEq, grubPipeline, grubRulesOnly, hpass1, linuxefiSub, hpass2,
          pyWords_collapse]
        exact ⟨hwordsX keyLinuxefi (Or.inr rfl), by
          rw [hwordsX keyLinuxefi (Or.inr rfl)]
          exact hcount keyLinuxefi (Or.inr rfl)⟩

/-- Witness for the amended C2, ISOLINUX side, at the line
`append initrd=/casper/initrd`. -/
theorem claim2_amended_witness :
    pyWords (isoPipeline defParams
        ([] ++ (appendLit ++ ([' '] ++ ("initrd=/casper/initrd").data))))
      = appendLit :: autoTok :: dsTok :: pyWords ("initrd=/casper/initrd").data ∧
    (pyWords (isoPipeline defParams
        ([] ++ (appendLit ++ ([' '] ++ ("initrd=/casper/initrd").data))))).count autoTok
      = 1 :=
  claim2_amended.1 [] [' '] ("initrd=/casper/initrd").data
    (by decide) (by decide) (by decide)
    (by intro c t h; rw [show ("initrd=/casper/initrd").data = 'i' :: ("nitrd=/casper/initrd").data from rfl] at h; injection h with h1 _; rw [← h1]; decide)
    (by decide) (by decide)

/-- Claim C9: a GRUB config line (leading whitespace, `linux` or `linuxefi`,
the kernel path `/casper/vmlinuz` or `/casper/hwe-vmlinuz`, then whitespace
and a token other than `---`) is left completely unmodified by the GRUB rule
set: the patterns only match when the kernel path is followed by a
whitespace-delimited `---` or by the end of the line. -/
theorem claim9_grub_no_match (pre key kern w1 w2 tok rest : List Char)
    (hkey : key = keyLinux ∨ key = keyLinuxefi)
    (hkern : kern = vmlinuzLit ∨ kern = hweVmlinuzLit)
    (hpre : wsRun pre) (hw1 : wsRun w1) (hw1n : w1 ≠ [])
    (hw2 : wsRun w2) (hnl : '\n' ∉ w2)
    (htokne : tok ≠ []) (htok : ∀ c ∈ tok, pySpace c = false) (htokd : tok ≠ dashes)
    (hrest : headWs rest)
    (hocc : occursB keyLinux (w2 ++ (tok ++ rest)) = false) :
    grubRulesOnly defParams
      (pre ++ (key ++ (w1 ++ (casperLit ++ (kern ++ (w2 ++ (tok ++ rest)))))))
      = pre ++ (key ++ (w1 ++ (casperLit ++ (kern ++ (w2 ++ (tok ++ rest)))))) := by
  have hg2 : grubG2 (w2 ++ (tok ++ rest)) = none :=
    grubG2_tok_none hw2 hnl htokne htok htokd hrest
  have hnm : ∀ key2, (key2 = keyLinux ∨ key2 = keyLinuxefi) →
      NoMatchIn (grubMatchAt key2 defParams)
        (pre ++ (key ++ (w1 ++ (casperLit ++ (kern ++ (w2 ++ (tok ++ rest))))))) := by
    intro key2 hkey2
    have htail : NoMatchIn (grubMatchAt key2 defParams) (w2 ++ (tok ++ rest)) :=
      noMatchIn_grub_occurs hkey2 hocc
    have hkernNM : NoMatchIn (grubMatchAt key2 defParams)
        (casperLit ++ (kern ++ (w2 ++ (tok ++ rest)))) :=
      noMatchIn_grub_casper_kern hkey2 hkern htail
    have hw1NM : NoMatchIn (grubMatchAt key2 defParams)
        (w1 ++ (casperLit ++ (kern ++ (w2 ++ (tok ++ rest))))) :=
      noMatchIn_grub_ws hkey2 hw1 hkernNM
    have hsite : NoMatchIn (grubMatchAt key2 defParams)
        (key ++ (w1 ++ (casperLit ++ (kern ++ (w2 ++ (tok ++ rest)))))) := by
      rcases hkey2 with rfl | rfl <;> rcases hkey with rfl | rfl
      · -- matcher linux at linux site
        apply noMatchIn_grub_sitefail (Or.inl rfl) _ hw1NM
        rcases hkern with rfl | rfl
        · exact grubMatchAt_evalFail_v hw1 hg2
        · exact grubMatchAt_evalFail_h hw1 hg2
      · -- matcher linux at linuxefi site
        exact noMatchIn_linux_at_efi hw1NM
      · -- matcher linuxefi at linux site
        exact noMatchIn_efi_at_linux hw1 hw1n hw1NM
      · -- matcher linuxefi at linuxefi site
        apply noMatchIn_grub_sitefail (Or.inr rfl) _ hw1NM
        rcases hkern with rfl | rfl
        · exact grubMatchAt_evalFail_v hw1 hg2
        · exact grubMatchAt_evalFail_h hw1 hg2
    exact noMatchIn_grub_ws hkey2 hpre hsite
  rw [grubRulesOnly, linuxSub, reSub_id (hnm keyLinux (Or.inl rfl)),
    linuxefiSub, reSub_id (hnm keyLinuxefi (Or.inr rfl))]

/-- Witness for C9 at the concrete line `linux /casper/vmlinuz quiet`. -/
theorem claim9_witness :
    grubRulesOnly defParams ("linux /casper/vmlinuz quiet").data
      = ("linux /casper/vmlinuz quiet").data :=
  claim9_grub_no_match [] keyLinux vmlinuzLit [' '] [' '] ("quiet").data []
    (Or.inl rfl) (Or.inl rfl) (by decide) (by decide) (by decide) (by decide)
    (by decide) (by decide) (by decide) (by decide)
    (fun c t h => List.noConfusion h) (by decide)

end UbuntuAutoinstall
